import Mathlib

/-!
Verification of the Madstamp stamp layout engine against its specification.

The embedded code is `stamp-generator/square/stamp_square.py`
(`SquareStampGenerator`) and `stamp-generator/circle/stamp_generator.py`
(`CircleStampGenerator`).  Python float arithmetic on the small integer
inputs involved is modelled exactly by rational arithmetic (`ℚ`), and
Python's `int(...)` truncation toward zero is modelled by `pyInt`.
Values that the source derives through `math.sqrt` (the 4- and 5-character
circle cell sizes) are handled by parameters constrained exactly as the
source constrains them.
-/

namespace Madstamp

/-- Python `int(x)` truncation toward zero on an exact rational model of the
float value `x`. -/
def pyInt (x : ℚ) : ℤ := if 0 ≤ x then ⌊x⌋ else ⌈x⌉

/-- The value `math.ceil(math.sqrt n)` used by `_auto_layout`: the least `c`
with `n ≤ c * c` (the search range `n + 1` always suffices). -/
def ceilSqrt (n : ℕ) : ℕ := (((List.range (n + 1)).find? (fun c => decide (n ≤ c * c))).getD 0)

/-- The value `rows = math.ceil(char_count / cols)` of `_auto_layout`. -/
def autoRows (n : ℕ) : ℕ := (n + ceilSqrt n - 1) / ceilSqrt n

/-- The row-building loop of `SquareStampGenerator._auto_layout`, recursing on
the number of rows still to fill; the last row takes the remainder, any other
row takes `min cols remaining`. -/
def autoLayoutLoop (cols : ℕ) : ℕ → ℕ → List ℕ
  | 0, _ => []
  | 1, remaining => [remaining]
  | k + 2, remaining => min cols remaining :: autoLayoutLoop cols (k + 1) (remaining - min cols remaining)

/-- `SquareStampGenerator._auto_layout`. -/
def auto_layout (n : ℕ) : List ℕ := autoLayoutLoop (ceilSqrt n) (autoRows n) n

/-- `SquareStampGenerator.get_layout`: the hand-tuned table for 4..20
characters, `_auto_layout` for anything else. -/
def get_layout (n : ℕ) : List ℕ :=
  match n with
  | 4 => [2, 2]
  | 5 => [2, 3]
  | 6 => [3, 3]
  | 7 => [3, 4]
  | 8 => [4, 4]
  | 9 => [3, 3, 3]
  | 10 => [3, 4, 3]
  | 11 => [3, 4, 4]
  | 12 => [4, 4, 4]
  | 13 => [4, 5, 4]
  | 14 => [4, 5, 5]
  | 15 => [5, 5, 5]
  | 16 => [4, 4, 4, 4]
  | 17 => [4, 4, 5, 4]
  | 18 => [4, 5, 5, 4]
  | 19 => [4, 5, 5, 5]
  | 20 => [5, 5, 5, 5]
  | _ => auto_layout n

/-- Modelled from the spec: the square row-plan table of section 4.2, written
out independently so `get_layout` can be compared against it. -/
def specSquareTable (n : ℕ) : List ℕ :=
  match n with
  | 4 => [2, 2]
  | 5 => [2, 3]
  | 6 => [3, 3]
  | 7 => [3, 4]
  | 8 => [4, 4]
  | 9 => [3, 3, 3]
  | 10 => [3, 4, 3]
  | 11 => [3, 4, 4]
  | 12 => [4, 4, 4]
  | 13 => [4, 5, 4]
  | 14 => [4, 5, 5]
  | 15 => [5, 5, 5]
  | 16 => [4, 4, 4, 4]
  | 17 => [4, 4, 5, 4]
  | 18 => [4, 5, 5, 4]
  | 19 => [4, 5, 5, 5]
  | 20 => [5, 5, 5, 5]
  | _ => []

/-- Modelled from the spec: the fallback row plan described in section 4.2,
`cols = ceil(sqrt n)` full rows with the final row taking the remainder. -/
def specFallback (n : ℕ) : List ℕ :=
  List.replicate (autoRows n - 1) (ceilSqrt n) ++ [n - (autoRows n - 1) * ceilSqrt n]

/-- Row plans realized by `CircleStampGenerator.create_stamp`'s per-count
dispatch onto `_draw_1char` .. `_draw_5char`; `none` outside 1..5 where the
dispatch draws nothing.  `vertical` is the `layout_3char` flag: the vertical
variant stacks three rows of one character, the horizontal one uses a single
row of three. -/
def circleRowPlan (vertical : Bool) (n : ℕ) : Option (List ℕ) :=
  match n with
  | 1 => some [1]
  | 2 => some [2]
  | 3 => some (if vertical then [1, 1, 1] else [3])
  | 4 => some [2, 2]
  | 5 => some [2, 3]
  | _ => none

/-- Decides that a row plan consists of positive entries summing to `n`. -/
def planOk (n : ℕ) (p : List ℕ) : Bool := (p.sum == n) && p.all (fun x => decide (0 < x))

/-- `planOk` applied to the circle dispatch's plan, vacuously true when the
dispatch draws nothing. -/
def circlePlanOk (vertical : Bool) (n : ℕ) : Bool :=
  match circleRowPlan vertical n with
  | none => true
  | some p => planOk n p

/-- The `gap_ratio = 0.02` of `SquareStampGenerator._draw_chars`. -/
def gapRatioSq : ℚ := 2 / 100

/-- The `margin = int(size * 0.03)` of both generators' `create_stamp`. -/
def marginPx (size : ℕ) : ℤ := pyInt ((size : ℚ) * 3 / 100)

/-- The `border_width = int(size * 0.035)` of both generators' `create_stamp`. -/
def borderPx (size : ℕ) : ℤ := pyInt ((size : ℚ) * 35 / 1000)

/-- The `int(size * 0.02)` inset of both generators' `create_stamp`. -/
def insetPx (size : ℕ) : ℤ := pyInt ((size : ℚ) * 2 / 100)

/-- `inner_size = size - 2 * inner_margin` of the square `create_stamp`, with
`inner_margin = margin + border_width + int(size * 0.02)`. -/
def squareInnerSize (size : ℕ) : ℤ :=
  (size : ℤ) - 2 * (marginPx size + borderPx size + insetPx size)

/-- `inner_radius = radius - border_width // 2 - int(size * 0.02)` of the
circle `create_stamp`, with `radius = size // 2 - margin`. -/
def circleInnerRadius (size : ℕ) : ℤ :=
  ((size / 2 : ℕ) : ℤ) - marginPx size - borderPx size / 2 - insetPx size

/-- `max_cols = max(layout)` of `_draw_chars` (layouts are nonempty). -/
def maxCols (plan : List ℕ) : ℕ := plan.foldr max 0

/-- `char_size_by_cols = inner_size / (max_cols + (max_cols - 1) * gap_ratio)`. -/
def char_size_by_cols (inner : ℚ) (plan : List ℕ) : ℚ :=
  inner / ((maxCols plan : ℚ) + ((maxCols plan : ℚ) - 1) * gapRatioSq)

/-- `char_size_by_rows = inner_size / (num_rows + (num_rows - 1) * gap_ratio)`. -/
def char_size_by_rows (inner : ℚ) (plan : List ℕ) : ℚ :=
  inner / ((plan.length : ℚ) + ((plan.length : ℚ) - 1) * gapRatioSq)

/-- `char_size = int(min(char_size_by_cols, char_size_by_rows))` of
`_draw_chars`. -/
def char_size (inner : ℚ) (plan : List ℕ) : ℤ :=
  pyInt (min (char_size_by_cols inner plan) (char_size_by_rows inner plan))

/-- `gap = int(char_size * gap_ratio)` of `_draw_chars`. -/
def gapOf (cs : ℤ) : ℤ := pyInt ((cs : ℚ) * gapRatioSq)

/-- Modelled from the spec: the real-valued cell-size formula of section 4.3,
`min(safeExtent*2 / (maxCols + (maxCols-1)*gapRatio),
     safeExtent*2 / (rows + (rows-1)*gapRatio))`. -/
def specCellSize (safe2 : ℚ) (plan : List ℕ) : ℚ :=
  min (safe2 / ((maxCols plan : ℚ) + ((maxCols plan : ℚ) - 1) * gapRatioSq))
      (safe2 / ((plan.length : ℚ) + ((plan.length : ℚ) - 1) * gapRatioSq))

/-- `row_width = row_count * char_size + (row_count - 1) * gap` (also the
total stack height with `row_count` the number of rows). -/
def rowWidth {α : Type} [Field α] (cs g : α) (L : ℕ) : α :=
  (L : α) * cs + ((L : α) - 1) * g

/-- The `target_x` of `_draw_chars`: `start_x + col_idx * (char_size + gap)`
with `start_x = cx - row_width / 2 + char_size / 2`. -/
def squareTargetX (cx cs g : ℚ) (L j : ℕ) : ℚ :=
  cx - rowWidth cs g L / 2 + cs / 2 + (j : ℚ) * (cs + g)

/-- The x coordinates of one row of `_draw_chars`. -/
def squareRowXs (cx cs g : ℚ) (L : ℕ) : List ℚ :=
  (List.range L).map (squareTargetX cx cs g L)

/-- The `row_y` of `_draw_chars`: `start_y + row_idx * (char_size + gap)` with
`start_y = cy - total_height / 2 + char_size / 2`. -/
def squareRowY (cy cs g : ℚ) (rows i : ℕ) : ℚ :=
  cy - rowWidth cs g rows / 2 + cs / 2 + (i : ℚ) * (cs + g)

/-- All character target centers of `_draw_chars`, row-major. -/
def squareTargets (cx cy cs g : ℚ) (plan : List ℕ) : List (ℚ × ℚ) :=
  plan.enum.flatMap (fun p =>
    (squareRowXs cx cs g p.2).map (fun x => (x, squareRowY cy cs g plan.length p.1)))

/-- The character loop of `_draw_chars`: characters are consumed in order, one
per slot, and the loop stops as soon as either characters or slots run out
(the `break` when `char_idx >= len(chars)`); no error is ever raised. -/
def placeChars (chars : List Char) (targets : List (ℚ × ℚ)) : List (Char × ℚ × ℚ) :=
  (chars.zip targets).map (fun ct => (ct.1, ct.2.1, ct.2.2))

/-- `SquareStampGenerator.create_stamp`'s character placement pipeline:
early-return with no characters for an empty text, otherwise layout, cell
size, gap and the placement loop. -/
def square_create (size : ℕ) (chars : List Char) : List (Char × ℚ × ℚ) :=
  if chars.length < 1 then []
  else
    placeChars chars
      (squareTargets ((size / 2 : ℕ) : ℚ) ((size / 2 : ℕ) : ℚ)
        ((char_size ((squareInnerSize size : ℤ) : ℚ) (get_layout chars.length) : ℤ) : ℚ)
        ((gapOf (char_size ((squareInnerSize size : ℤ) : ℚ) (get_layout chars.length)) : ℤ) : ℚ)
        (get_layout chars.length))

/-- `char_size = int(radius * 2 * 0.82)` of `_draw_1char`. -/
def circle1CharSize (r : ℤ) : ℤ := pyInt ((r : ℚ) * 2 * (82 / 100))

/-- `char_size = int(available_width / (2 + gap_ratio))` of `_draw_2char`,
`available_width = radius * 2 * 0.85`, `gap_ratio = 0.02`. -/
def circle2CharSize (r : ℤ) : ℤ := pyInt ((r : ℚ) * 2 * (85 / 100) / (2 + 2 / 100))

/-- `gap = int(char_size * 0.02)` of `_draw_2char`. -/
def circle2Gap (r : ℤ) : ℤ := pyInt ((circle2CharSize r : ℚ) * (2 / 100))

/-- `char_size = int(available / (3 + 2 * gap_ratio))` of
`_draw_3char_horizontal` and `_draw_3char_vertical`, `available = radius * 2 *
0.92`, `gap_ratio = 0.02`. -/
def circle3CharSize (r : ℤ) : ℤ := pyInt ((r : ℚ) * 2 * (92 / 100) / (3 + 2 * (2 / 100)))

/-- `gap = int(char_size * 0.02)` of the 3-character circle draws. -/
def circle3Gap (r : ℤ) : ℤ := pyInt ((circle3CharSize r : ℚ) * (2 / 100))

/-- `gap = int(char_size * 0.01)` of `_draw_4char`. -/
def circleGap4 (cs : ℤ) : ℤ := pyInt ((cs : ℚ) * (1 / 100))

/-- `gap = int(char_size * 0.01)` of `_draw_5char`. -/
def circleGap5 (cs : ℤ) : ℤ := pyInt ((cs : ℚ) * (1 / 100))

/-- The rows of x coordinates drawn by `_draw_1char`. -/
def circle1Xs (cx : ℚ) : List (List ℚ) := [[cx]]

/-- The rows of x coordinates drawn by `_draw_2char`: `cx ± half_step` with
`half_step = (char_size + gap) / 2`. -/
def circle2Xs (cx cs g : ℚ) : List (List ℚ) :=
  [[cx - (cs + g) / 2, cx + (cs + g) / 2]]

/-- The row of x coordinates drawn by `_draw_3char_horizontal`:
`cx - step, cx, cx + step` with `step = char_size + gap`. -/
def circle3hXs (cx cs g : ℚ) : List (List ℚ) :=
  [[cx - (cs + g), cx, cx + (cs + g)]]

/-- The rows of x coordinates drawn by `_draw_3char_vertical`: three rows of a
single character at `cx`. -/
def circle3vXs (cx : ℚ) : List (List ℚ) := [[cx], [cx], [cx]]

/-- The rows of x coordinates drawn by `_draw_4char`: two rows of
`cx ± half_step`. -/
def circle4Xs (cx cs g : ℚ) : List (List ℚ) :=
  [[cx - (cs + g) / 2, cx + (cs + g) / 2], [cx - (cs + g) / 2, cx + (cs + g) / 2]]

/-- The rows of x coordinates drawn by `_draw_5char`: top row `cx ± half_step`,
bottom row `cx - step, cx, cx + step`. -/
def circle5Xs (cx cs g : ℚ) : List (List ℚ) :=
  [[cx - (cs + g) / 2, cx + (cs + g) / 2], [cx - (cs + g), cx, cx + (cs + g)]]

/-- A row's multiset of `centerX` offsets from `cx` is symmetric: reading the
offsets right-to-left gives exactly the negated offsets, so every `+d` pairs
with a `-d` and an odd middle element sits on `0`. -/
def symRow (cx : ℚ) (xs : List ℚ) : Prop :=
  (xs.map (fun x => x - cx)).reverse = (xs.map (fun x => x - cx)).map (fun d => -d)

/-- Abstract result of `CircleStampGenerator.create_stamp`: the border is
always stroked, and characters are drawn exactly when the per-count dispatch
fires, in which case `rowPlan` records the realized row structure. -/
structure CircleStampResult where
  borderDrawn : Bool
  rowPlan : Option (List ℕ)
deriving DecidableEq

/-- `CircleStampGenerator.create_stamp`: stroke the border, then dispatch on
`len(text)`; counts outside 1..5 hit no branch of the if/elif chain, so only
the border is drawn and the call still returns normally. -/
def circle_create_stamp (vertical : Bool) (chars : List Char) : CircleStampResult :=
  { borderDrawn := true, rowPlan := circleRowPlan vertical chars.length }

/-- Abstract environment for `get_font`: the `self.fonts` dictionary lookup,
`os.path.exists`, and whether `ImageFont.truetype` succeeds on a path. -/
structure FontEnv where
  fontPath : String → Option String
  pathExists : String → Bool
  truetypeOk : String → Bool

/-- Result of `get_font`: a loaded truetype font or the library default. -/
inductive FontRes where
  | truetype (path : String) (size : ℕ)
  | defaultFont
deriving DecidableEq

/-- `get_font` of both generators: look the name up in the font dictionary;
if the path is missing, empty, absent on disk, or `ImageFont.truetype` raises
(the bare `except: pass`), fall back to `ImageFont.load_default()`. -/
def get_font (env : FontEnv) (name : String) (size : ℕ) : FontRes :=
  match env.fontPath name with
  | some p =>
      if p.length ≠ 0 && env.pathExists p && env.truetypeOk p then FontRes.truetype p size
      else FontRes.defaultFont
  | none => FontRes.defaultFont

theorem pyInt_eval {x : ℚ} {n : ℤ} (h1 : (n : ℚ) ≤ x) (h2 : x < n + 1) (h0 : 0 ≤ n) :
    pyInt x = n := by
  have hx : (0 : ℚ) ≤ x := le_trans (by exact_mod_cast h0) h1
  unfold pyInt
  rw [if_pos hx]
  exact Int.floor_eq_iff.mpr ⟨h1, by exact_mod_cast h2⟩

theorem pyInt_le {x : ℚ} (h : 0 ≤ x) : (pyInt x : ℚ) ≤ x := by
  unfold pyInt
  rw [if_pos h]
  exact Int.floor_le x

theorem pyInt_nonneg {x : ℚ} (h : 0 ≤ x) : 0 ≤ pyInt x := by
  unfold pyInt
  rw [if_pos h]
  exact Int.floor_nonneg.mpr h

/-- C1: for every character count in [1, 20], the square resolver's row plan
(table, or `_auto_layout` for counts 1..3) and, whenever the circle dispatch
produces one (counts 1..5, both 3-character variants), the circle row plan,
are lists of positive integers summing to the character count. -/
theorem rowPlan_sum_invariant :
    ((List.range 20).all (fun k =>
      planOk (k + 1) (get_layout (k + 1)) && circlePlanOk true (k + 1)
        && circlePlanOk false (k + 1))) = true := by
  decide

/-- C5: on every tabulated count 4..20 the square resolver returns exactly the
spec's table row plan, in particular at 4, 8, 10, 16, 17 and 20. -/
theorem square_table_matches_spec :
    ((List.range 17).all (fun k => decide (get_layout (k + 4) = specSquareTable (k + 4)))) = true
    ∧ get_layout 4 = [2, 2] ∧ get_layout 8 = [4, 4] ∧ get_layout 10 = [3, 4, 3]
    ∧ get_layout 16 = [4, 4, 4, 4] ∧ get_layout 17 = [4, 4, 5, 4]
    ∧ get_layout 20 = [5, 5, 5, 5] := by
  refine ⟨by decide, by decide, by decide, by decide, by decide, by decide, by decide⟩

theorem autoLayoutLoop_eq (cols : ℕ) :
    ∀ k remaining, 1 ≤ k → (k - 1) * cols < remaining →
      autoLayoutLoop cols k remaining
        = List.replicate (k - 1) cols ++ [remaining - (k - 1) * cols] := by
  intro k
  induction k with
  | zero => intro remaining h; exact absurd h (by omega)
  | succ k ih =>
    intro remaining _ hlt
    cases k with
    | zero => simp [autoLayoutLoop]
    | succ k' =>
      simp only [Nat.add_sub_cancel] at hlt ⊢
      have hexp : (k' + 1) * cols = k' * cols + cols := by ring
      rw [hexp] at hlt
      have hcols : cols ≤ remaining := by omega
      have ihh := ih (remaining - cols) (by omega)
        (by simp only [Nat.add_sub_cancel]; omega)
      simp only [Nat.add_sub_cancel] at ihh
      rw [autoLayoutLoop, Nat.min_eq_left hcols, ihh]
      have hrem : remaining - cols - k' * cols = remaining - (k' + 1) * cols := by
        rw [hexp]; omega
      rw [hrem, List.replicate_succ]
      simp

theorem ceilSqrt_pos {n : ℕ} (h : 1 ≤ n) : 1 ≤ ceilSqrt n := by
  unfold ceilSqrt
  rcases hf : (List.range (n + 1)).find? (fun c => decide (n ≤ c * c)) with _ | c
  · rw [List.find?_eq_none] at hf
    have hmem : n ∈ List.range (n + 1) := by simp
    have hn := hf n hmem
    simp only [decide_eq_true_eq] at hn
    exact absurd (le_trans (by omega : n ≤ n * 1) (Nat.mul_le_mul_left n h)) hn
  · have := List.find?_some hf
    simp only [decide_eq_true_eq] at this
    simp only [Option.getD_some]
    by_contra hc
    interval_cases c
    omega

theorem autoRows_pos {n : ℕ} (h : 1 ≤ n) : 1 ≤ autoRows n := by
  unfold autoRows
  have hc := ceilSqrt_pos h
  have : 1 * ceilSqrt n ≤ n + ceilSqrt n - 1 := by omega
  exact (Nat.le_div_iff_mul_le (by omega)).mpr this

theorem autoRows_lt {n : ℕ} (h : 1 ≤ n) : (autoRows n - 1) * ceilSqrt n < n := by
  have hc := ceilSqrt_pos h
  have hrw : n + ceilSqrt n - 1 = (n - 1) + ceilSqrt n := by omega
  have hdiv : autoRows n = (n - 1) / ceilSqrt n + 1 := by
    unfold autoRows
    rw [hrw, Nat.add_div_right _ (by omega)]
  have hle : ((n - 1) / ceilSqrt n) * ceilSqrt n ≤ n - 1 := Nat.div_mul_le_self _ _
  rw [hdiv]
  simpa using lt_of_le_of_lt hle (by omega)

/-- C6: for every positive character count the fallback layout equals the
spec's greedy description (`cols = ceil(sqrt n)` full rows, final row taking
the remainder); in particular 21 characters give `cols = 5`, plan
`[5, 5, 5, 5, 1]`, summing to 21. -/
theorem fallback_layout_greedy :
    (∀ n, 1 ≤ n → auto_layout n = specFallback n)
    ∧ ceilSqrt 21 = 5 ∧ auto_layout 21 = [5, 5, 5, 5, 1]
    ∧ (auto_layout 21).sum = 21 := by
  refine ⟨?_, by decide, by decide, by decide⟩
  intro n hn
  unfold auto_layout specFallback
  exact autoLayoutLoop_eq (ceilSqrt n) (autoRows n) n (autoRows_pos hn) (autoRows_lt hn)

theorem fallback_layout_greedy_instance : auto_layout 21 = specFallback 21 :=
  fallback_layout_greedy.1 21 (by decide)

/-- C9: whenever the character count lies outside 1..5 (the empty string, or
six and more characters) the circle `create_stamp` returns a border-only
result: no characters are drawn, no fallback layout is used, and no error is
raised (the dispatch simply falls through and the image is returned). -/
theorem circle_out_of_range_border_only (vertical : Bool) (chars : List Char)
    (h : chars.length = 0 ∨ 6 ≤ chars.length) :
    circle_create_stamp vertical chars = ⟨true, none⟩ := by
  rcases h with h | h
  · simp [circle_create_stamp, circleRowPlan, h]
  · obtain ⟨m, hm⟩ : ∃ m, chars.length = m + 6 := ⟨chars.length - 6, by omega⟩
    simp [circle_create_stamp, circleRowPlan, hm]

theorem circle_out_of_range_border_only_instance :
    circle_create_stamp true ['a', 'b', 'c', 'd', 'e', 'f'] = ⟨true, none⟩ :=
  circle_out_of_range_border_only true ['a', 'b', 'c', 'd', 'e', 'f'] (Or.inr (by decide))

/-- C10: `get_font` is total and silently substitutes the default font: it
always returns either a truetype font or the default, and any failure mode
(name missing from the dictionary, empty path, path absent on disk, or
`ImageFont.truetype` raising) yields the default font rather than an error. -/
theorem get_font_never_fails :
    (∀ (env : FontEnv) (name : String) (size : ℕ),
      get_font env name size = FontRes.defaultFont
        ∨ ∃ p, get_font env name size = FontRes.truetype p size)
    ∧ (∀ (env : FontEnv) (name : String) (size : ℕ),
        env.fontPath name = none → get_font env name size = FontRes.defaultFont)
    ∧ (∀ (env : FontEnv) (name : String) (size : ℕ) (p : String),
        env.fontPath name = some p →
        (p.length = 0 ∨ env.pathExists p = false ∨ env.truetypeOk p = false) →
        get_font env name size = FontRes.defaultFont) := by
  refine ⟨?_, ?_, ?_⟩
  · intro env name size
    rcases hq : env.fontPath name with _ | p
    · exact Or.inl (by simp [get_font, hq])
    · by_cases hb : (p.length ≠ 0 && env.pathExists p && env.truetypeOk p) = true
      · exact Or.inr ⟨p, by simp only [get_font, hq]; rw [if_pos hb]⟩
      · exact Or.inl (by simp only [get_font, hq]; rw [if_neg hb])
  · intro env name size h
    simp [get_font, h]
  · intro env name size p hp hfail
    have hfalse : (p.length ≠ 0 && env.pathExists p && env.truetypeOk p) = false := by
      rcases hfail with h | h | h <;> simp [h]
    simp only [get_font, hp]
    rw [hfalse]
    rfl

theorem get_font_never_fails_instance :
    get_font ⟨fun _ => none, fun _ => false, fun _ => false⟩ "noto_serif" 40
      = FontRes.defaultFont :=
  get_font_never_fails.2.1 ⟨fun _ => none, fun _ => false, fun _ => false⟩ "noto_serif" 40 rfl

theorem squareInnerSize_1024 : squareInnerSize 1024 = 854 := by
  have hm : marginPx 1024 = 30 := by unfold marginPx; apply pyInt_eval <;> norm_num
  have hb : borderPx 1024 = 35 := by unfold borderPx; apply pyInt_eval <;> norm_num
  have hi : insetPx 1024 = 20 := by unfold insetPx; apply pyInt_eval <;> norm_num
  unfold squareInnerSize
  rw [hm, hb, hi]
  norm_num

theorem squareInnerSize_5 : squareInnerSize 5 = 5 := by
  have hm : marginPx 5 = 0 := by unfold marginPx; apply pyInt_eval <;> norm_num
  have hb : borderPx 5 = 0 := by unfold borderPx; apply pyInt_eval <;> norm_num
  have hi : insetPx 5 = 0 := by unfold insetPx; apply pyInt_eval <;> norm_num
  unfold squareInnerSize
  rw [hm, hb, hi]
  norm_num

theorem char_size_eval_4 : char_size ((squareInnerSize 1024 : ℤ) : ℚ) (get_layout 4) = 422 := by
  rw [squareInnerSize_1024, show get_layout 4 = [2, 2] from by decide]
  unfold char_size char_size_by_cols char_size_by_rows gapRatioSq
  rw [show maxCols [2, 2] = 2 from by decide, show ([2, 2] : List ℕ).length = 2 from by decide,
    min_self]
  apply pyInt_eval <;> norm_num

theorem gap_eval_422 : gapOf 422 = 8 := by
  unfold gapOf gapRatioSq
  apply pyInt_eval <;> norm_num

theorem specCellSize_eval_4 : specCellSize ((854 : ℤ) : ℚ) [2, 2] = 42700 / 101 := by
  unfold specCellSize gapRatioSq
  rw [show maxCols [2, 2] = 2 from by decide, show ([2, 2] : List ℕ).length = 2 from by decide,
    min_self]
  norm_num

theorem length_placeChars (chars : List Char) (ts : List (ℚ × ℚ)) :
    (placeChars chars ts).length = min chars.length ts.length := by
  simp [placeChars]

theorem length_squareTargets (cx cy cs g : ℚ) (plan : List ℕ) :
    (squareTargets cx cy cs g plan).length = plan.sum := by
  unfold squareTargets squareRowXs
  rw [List.length_flatMap]
  simp only [Function.comp_def, List.length_map, List.length_range]
  simp

/-- C3 as stated fails: at canvas size 1024 with 4 characters the code's cell
size is the integer truncation 422, not the real-valued minimum 42700/101 of
the spec formula, and the gap 8 is not 422 * gapRatio = 8.44. -/
theorem cellSize_formula_not_exact :
    ¬ (((char_size ((squareInnerSize 1024 : ℤ) : ℚ) (get_layout 4) : ℤ) : ℚ)
          = specCellSize ((squareInnerSize 1024 : ℤ) : ℚ) (get_layout 4)
        ∧ ((gapOf (char_size ((squareInnerSize 1024 : ℤ) : ℚ) (get_layout 4)) : ℤ) : ℚ)
          = ((char_size ((squareInnerSize 1024 : ℤ) : ℚ) (get_layout 4) : ℤ) : ℚ) * gapRatioSq) := by
  intro hcl
  obtain ⟨h1, -⟩ := hcl
  rw [char_size_eval_4, squareInnerSize_1024,
    show get_layout 4 = [2, 2] from by decide, specCellSize_eval_4] at h1
  norm_num at h1

/-- C3 amended: the square cell size is the Python `int(...)` truncation of
the spec's real-valued minimum formula applied to the code's inner size, and
the gap is the truncation of `cellSize * gapRatio`; at canvas 1024 with 4
characters this gives cell size 422 and gap 8. -/
theorem cellSize_truncated_formula :
    (∀ (inner : ℚ) (plan : List ℕ),
      char_size inner plan = pyInt (specCellSize inner plan)
        ∧ gapOf (char_size inner plan) = pyInt ((char_size inner plan : ℚ) * gapRatioSq))
    ∧ char_size ((squareInnerSize 1024 : ℤ) : ℚ) (get_layout 4) = 422
    ∧ gapOf 422 = 8 :=
  ⟨fun _ _ => ⟨rfl, rfl⟩, char_size_eval_4, gap_eval_422⟩

/-- C7 fails on the code: at canvas size 5 with a 20-character text the solver
computes cell size 0 (the truncation of 125/127) and the generator proceeds to
place all 20 characters anyway; no `LayoutInfeasible` failure path exists in
the source. -/
theorem cellSize_zero_proceeds :
    char_size ((squareInnerSize 5 : ℤ) : ℚ) (get_layout 20) = 0
    ∧ (square_create 5 (List.replicate 20 'a')).length = 20 := by
  have h20 : get_layout 20 = [5, 5, 5, 5] := by decide
  have hcs : char_size ((squareInnerSize 5 : ℤ) : ℚ) (get_layout 20) = 0 := by
    rw [squareInnerSize_5, h20]
    unfold char_size char_size_by_cols char_size_by_rows gapRatioSq
    rw [show maxCols [5, 5, 5, 5] = 5 from by decide,
      show ([5, 5, 5, 5] : List ℕ).length = 4 from by decide]
    rw [show min (((5 : ℤ) : ℚ) / (((5 : ℕ) : ℚ) + (((5 : ℕ) : ℚ) - 1) * (2 / 100)))
          (((5 : ℤ) : ℚ) / (((4 : ℕ) : ℚ) + (((4 : ℕ) : ℚ) - 1) * (2 / 100)))
        = 125 / 127 from by rw [min_eq_left (by norm_num)]; norm_num]
    apply pyInt_eval <;> norm_num
  refine ⟨hcs, ?_⟩
  unfold square_create
  rw [if_neg (by simp)]
  rw [length_placeChars, length_squareTargets]
  simp only [List.length_replicate]
  rw [h20]
  decide

/-- C8 fails on the code: given a row plan whose sum (4) differs from the
text length (3), the placement loop simply pairs characters with slots until
one side runs out — here it places the 3 characters and leaves a slot empty —
and raises no `PlanMismatch`; in general the number of placements is
`min(len(text), sum(plan))`. -/
theorem plan_mismatch_silent :
    (∀ (chars : List Char) (cx cy cs g : ℚ) (plan : List ℕ),
      (placeChars chars (squareTargets cx cy cs g plan)).length = min chars.length plan.sum)
    ∧ (placeChars ['a', 'b', 'c'] (squareTargets 512 512 422 8 [2, 2])).length = 3
    ∧ ([2, 2] : List ℕ).sum ≠ 3 := by
  refine ⟨?_, ?_, by decide⟩
  · intro chars cx cy cs g plan
    rw [length_placeChars, length_squareTargets]
  · rw [length_placeChars, length_squareTargets]
    decide

theorem squareTargetX_pair (cx cs g : ℚ) (L j : ℕ) (h : j < L) :
    (squareTargetX cx cs g L j - cx) + (squareTargetX cx cs g L (L - 1 - j) - cx) = 0 := by
  unfold squareTargetX rowWidth
  have hcast : ((L - 1 - j : ℕ) : ℚ) = (L : ℚ) - 1 - (j : ℚ) := by
    have h3 : (L - 1 - j : ℕ) = L - (1 + j) := by omega
    rw [h3, Nat.cast_sub (by omega)]
    push_cast
    ring
  rw [hcast]
  ring

theorem squareRowXs_symm (cx cs g : ℚ) (L : ℕ) : symRow cx (squareRowXs cx cs g L) := by
  unfold symRow squareRowXs
  rw [List.map_map, List.map_map]
  apply List.ext_getElem
  · simp
  · intro i h1 h2
    simp only [List.length_reverse, List.length_map, List.length_range] at h1 h2
    rw [List.getElem_reverse]
    simp only [List.getElem_map, List.getElem_range, Function.comp_apply, List.length_map,
      List.length_range]
    have hp := squareTargetX_pair cx cs g L (L - 1 - i) (by omega)
    have hidx : L - 1 - (L - 1 - i) = i := by omega
    rw [hidx] at hp
    linarith

theorem symRow_single (cx : ℚ) : symRow cx [cx] := by
  unfold symRow
  simp

theorem symRow_pair (cx h : ℚ) : symRow cx [cx - h, cx + h] := by
  unfold symRow
  simp only [List.map_cons, List.map_nil, List.reverse_cons, List.reverse_nil, List.nil_append,
    List.cons_append, List.cons.injEq, and_true]
  exact ⟨by ring, by ring⟩

theorem symRow_triple (cx h : ℚ) : symRow cx [cx - h, cx, cx + h] := by
  unfold symRow
  simp [List.reverse_cons]

/-- C2: in every resolved layout, each row's multiset of `centerX` offsets
from the canvas center `cx` is symmetric.  For the square generator this
holds for every row length and any cell size and gap (reversing a row negates
its offsets, paired slots `j` and `L-1-j` cancel, and the middle slot of an
odd row sits exactly on `cx`); for the circle generator it holds for every
row of every per-count draw routine, both 3-character variants included. -/
theorem row_symmetry :
    (∀ (cx cs g : ℚ) (L : ℕ), symRow cx (squareRowXs cx cs g L))
    ∧ (∀ (cx cs g : ℚ) (L j : ℕ), j < L →
        (squareTargetX cx cs g L j - cx) + (squareTargetX cx cs g L (L - 1 - j) - cx) = 0)
    ∧ (∀ (cx cs g : ℚ) (k : ℕ), squareTargetX cx cs g (2 * k + 1) k = cx)
    ∧ (∀ (cx : ℚ), ∀ row ∈ circle1Xs cx, symRow cx row)
    ∧ (∀ (cx cs g : ℚ), ∀ row ∈ circle2Xs cx cs g, symRow cx row)
    ∧ (∀ (cx cs g : ℚ), ∀ row ∈ circle3hXs cx cs g, symRow cx row)
    ∧ (∀ (cx : ℚ), ∀ row ∈ circle3vXs cx, symRow cx row)
    ∧ (∀ (cx cs g : ℚ), ∀ row ∈ circle4Xs cx cs g, symRow cx row)
    ∧ (∀ (cx cs g : ℚ), ∀ row ∈ circle5Xs cx cs g, symRow cx row) := by
  refine ⟨squareRowXs_symm, squareTargetX_pair, ?_, ?_, ?_, ?_, ?_, ?_, ?_⟩
  · intro cx cs g k
    unfold squareTargetX rowWidth
    push_cast
    ring
  · intro cx row hrow
    simp only [circle1Xs, List.mem_singleton] at hrow
    subst hrow
    exact symRow_single cx
  · intro cx cs g row hrow
    simp only [circle2Xs, List.mem_singleton] at hrow
    subst hrow
    exact symRow_pair cx ((cs + g) / 2)
  · intro cx cs g row hrow
    simp only [circle3hXs, List.mem_singleton] at hrow
    subst hrow
    exact symRow_triple cx (cs + g)
  · intro cx row hrow
    simp only [circle3vXs, List.mem_cons, List.mem_singleton, List.not_mem_nil, or_false] at hrow
    rcases hrow with h | h | h <;> (subst h; exact symRow_single cx)
  · intro cx cs g row hrow
    simp only [circle4Xs, List.mem_cons, List.mem_singleton, List.not_mem_nil, or_false] at hrow
    rcases hrow with h | h <;> (subst h; exact symRow_pair cx ((cs + g) / 2))
  · intro cx cs g row hrow
    simp only [circle5Xs, List.mem_cons, List.mem_singleton, List.not_mem_nil, or_false] at hrow
    rcases hrow with h | h
    · subst h; exact symRow_pair cx ((cs + g) / 2)
    · subst h; exact symRow_triple cx (cs + g)

theorem row_symmetry_instance :
    (squareTargetX 512 422 8 3 0 - 512) + (squareTargetX 512 422 8 3 (3 - 1 - 0) - 512) = 0 :=
  row_symmetry.2.1 512 422 8 3 0 (by norm_num)

theorem circle1CharSize_bound (r : ℤ) (hr : 0 ≤ r) :
    circle1CharSize r * 25 ≤ 41 * r ∧ 0 ≤ circle1CharSize r := by
  have hrq : (0 : ℚ) ≤ (r : ℚ) := by exact_mod_cast hr
  constructor
  · have h1 : ((circle1CharSize r : ℤ) : ℚ) ≤ (r : ℚ) * 2 * (82 / 100) := pyInt_le (by positivity)
    have h2 : ((circle1CharSize r : ℤ) : ℚ) * 25 ≤ 41 * (r : ℚ) := by linarith
    exact_mod_cast h2
  · exact pyInt_nonneg (by positivity)

theorem circle2CharSize_bound (r : ℤ) (hr : 0 ≤ r) :
    circle2CharSize r * 101 ≤ 85 * r ∧ 0 ≤ circle2CharSize r := by
  have hrq : (0 : ℚ) ≤ (r : ℚ) := by exact_mod_cast hr
  constructor
  · have h1 : ((circle2CharSize r : ℤ) : ℚ) ≤ (r : ℚ) * 2 * (85 / 100) / (2 + 2 / 100) :=
      pyInt_le (by positivity)
    have h2 : ((circle2CharSize r : ℤ) : ℚ) * 101 ≤ 85 * (r : ℚ) := by
      rw [show (r : ℚ) * 2 * (85 / 100) / (2 + 2 / 100) = (r : ℚ) * (85 / 101) from by ring] at h1
      linarith
    exact_mod_cast h2
  · exact pyInt_nonneg (by positivity)

theorem circle2Gap_bound (r : ℤ) (hr : 0 ≤ r) :
    circle2Gap r * 50 ≤ circle2CharSize r ∧ 0 ≤ circle2Gap r := by
  have hcs : (0 : ℚ) ≤ ((circle2CharSize r : ℤ) : ℚ) := by
    exact_mod_cast (circle2CharSize_bound r hr).2
  constructor
  · have h1 : ((circle2Gap r : ℤ) : ℚ) ≤ ((circle2CharSize r : ℤ) : ℚ) * (2 / 100) :=
      pyInt_le (by positivity)
    have h2 : ((circle2Gap r : ℤ) : ℚ) * 50 ≤ ((circle2CharSize r : ℤ) : ℚ) := by linarith
    exact_mod_cast h2
  · exact pyInt_nonneg (by positivity)

theorem circle3CharSize_bound (r : ℤ) (hr : 0 ≤ r) :
    circle3CharSize r * 38 ≤ 23 * r ∧ 0 ≤ circle3CharSize r := by
  have hrq : (0 : ℚ) ≤ (r : ℚ) := by exact_mod_cast hr
  constructor
  · have h1 : ((circle3CharSize r : ℤ) : ℚ) ≤ (r : ℚ) * 2 * (92 / 100) / (3 + 2 * (2 / 100)) :=
      pyInt_le (by positivity)
    have h2 : ((circle3CharSize r : ℤ) : ℚ) * 38 ≤ 23 * (r : ℚ) := by
      rw [show (r : ℚ) * 2 * (92 / 100) / (3 + 2 * (2 / 100)) = (r : ℚ) * (23 / 38) from by
        ring] at h1
      linarith
    exact_mod_cast h2
  · exact pyInt_nonneg (by positivity)

theorem circle3Gap_bound (r : ℤ) (hr : 0 ≤ r) :
    circle3Gap r * 50 ≤ circle3CharSize r ∧ 0 ≤ circle3Gap r := by
  have hcs : (0 : ℚ) ≤ ((circle3CharSize r : ℤ) : ℚ) := by
    exact_mod_cast (circle3CharSize_bound r hr).2
  constructor
  · have h1 : ((circle3Gap r : ℤ) : ℚ) ≤ ((circle3CharSize r : ℤ) : ℚ) * (2 / 100) :=
      pyInt_le (by positivity)
    have h2 : ((circle3Gap r : ℤ) : ℚ) * 50 ≤ ((circle3CharSize r : ℤ) : ℚ) := by linarith
    exact_mod_cast h2
  · exact pyInt_nonneg (by positivity)

theorem circleGap4_bound (cs : ℤ) (h : 0 ≤ cs) :
    circleGap4 cs * 100 ≤ cs ∧ 0 ≤ circleGap4 cs := by
  have hcs : (0 : ℚ) ≤ ((cs : ℤ) : ℚ) := by exact_mod_cast h
  constructor
  · have h1 : ((circleGap4 cs : ℤ) : ℚ) ≤ ((cs : ℤ) : ℚ) * (1 / 100) := pyInt_le (by positivity)
    have h2 : ((circleGap4 cs : ℤ) : ℚ) * 100 ≤ ((cs : ℤ) : ℚ) := by linarith
    exact_mod_cast h2
  · exact pyInt_nonneg (by positivity)

theorem circleGap5_bound (cs : ℤ) (h : 0 ≤ cs) :
    circleGap5 cs * 100 ≤ cs ∧ 0 ≤ circleGap5 cs := by
  have hcs : (0 : ℚ) ≤ ((cs : ℤ) : ℚ) := by exact_mod_cast h
  constructor
  · have h1 : ((circleGap5 cs : ℤ) : ℚ) ≤ ((cs : ℤ) : ℚ) * (1 / 100) := pyInt_le (by positivity)
    have h2 : ((circleGap5 cs : ℤ) : ℚ) * 100 ≤ ((cs : ℤ) : ℚ) := by linarith
    exact_mod_cast h2
  · exact pyInt_nonneg (by positivity)

theorem sqrt_two_ub : Real.sqrt 2 ≤ 141422 / 100000 := by
  nlinarith [Real.sq_sqrt (show (0 : ℝ) ≤ 2 by norm_num), Real.sqrt_nonneg 2,
    sq_nonneg (Real.sqrt 2 - 14143 / 10000)]

theorem chord3v_off (r a b : ℝ) (hr : 0 ≤ r) (ha : a * 38 ≤ 23 * r) (hb : b * 50 ≤ a) (hbn : 0 ≤ b) :
    a ≤ (95 / 100) * (2 * Real.sqrt (r ^ 2 - (a + b) ^ 2)) := by
  have hdy : a + b ≤ (618 / 1000) * r := by linarith
  have hdy2 : (a + b) ^ 2 ≤ ((618 / 1000) * r) ^ 2 := by
    nlinarith [mul_nonneg (sub_nonneg.mpr hdy)
      (by linarith : (0 : ℝ) ≤ (618 / 1000) * r + (a + b))]
  have hslb : (78 / 100) * r ≤ Real.sqrt (r ^ 2 - (a + b) ^ 2) :=
    Real.le_sqrt_of_sq_le (by nlinarith [sq_nonneg r])
  linarith

theorem chord4_row (r a b : ℝ) (hr : 0 ≤ r) (ha : a ≤ (62 / 100) * r) (han : 0 ≤ a)
    (hb : b * 100 ≤ a) (hbn : 0 ≤ b) :
    2 * a + b ≤ (95 / 100) * (2 * Real.sqrt (r ^ 2 - ((a + b) / 2) ^ 2)) := by
  have hdy : a + b ≤ (627 / 1000) * r := by linarith
  have hdy2 : ((a + b) / 2) ^ 2 ≤ ((314 / 1000) * r) ^ 2 := by
    nlinarith [mul_nonneg (sub_nonneg.mpr hdy)
      (by linarith : (0 : ℝ) ≤ (627 / 1000) * r + (a + b))]
  have hslb : (94 / 100) * r ≤ Real.sqrt (r ^ 2 - ((a + b) / 2) ^ 2) :=
    Real.le_sqrt_of_sq_le (by nlinarith [sq_nonneg r])
  linarith

theorem chord5_row (s a b : ℝ) (hs : 0 ≤ s)
    (ha : a * (3 + 2 * (1 / 100)) ≤ 2 * s * (92 / 100)) (han : 0 ≤ a)
    (hb : b * 100 ≤ a) (hbn : 0 ≤ b) :
    3 * a + 2 * b ≤ (92 / 100) * (2 * s) ∧ 2 * a + b ≤ (92 / 100) * (2 * s) := by
  constructor <;> linarith

/-- C4: chord containment for every circle layout, counts 1 through 5 with
both 3-character variants.  Each row's width `rowLen * cellSize +
(rowLen-1) * gap` stays below the chord `2 * sqrt(r^2 - dy^2)` of the safe
circle at the row's vertical offset `dy`, scaled by a fill factor below one
(the code's own 0.82 / 0.85 / 0.92 factors on the center line, 0.95 for the
off-center rows).  The 1-, 2- and 3-character cell sizes are the code's
truncated values; `cs4`/`cs5` stand for the 4- and 5-character
`char_size = int(...)` values, constrained by exactly the pre-truncation
formulas the source computes them from (`max_side = r*sqrt(2)*0.88` over
`2.01`, and the chord-derived `available_width` over `3.02`), with
`g4`/`g5` the corresponding `int(char_size * 0.01)` gaps. -/
theorem circle_chord_constraint (r cs4 g4 cs5 g5 : ℤ) (hr : 0 ≤ r)
    (hcs4 : (cs4 : ℝ) ≤ (r : ℝ) * Real.sqrt 2 * (88 / 100) / (2 + 1 / 100))
    (hcs4n : 0 ≤ cs4)
    (hg4 : g4 = circleGap4 cs4)
    (hcs5 : (cs5 : ℝ) ≤ 2 * Real.sqrt ((r : ℝ) ^ 2 - ((26 / 100) * (r : ℝ)) ^ 2) * (92 / 100)
      / (3 + 2 * (1 / 100)))
    (hcs5n : 0 ≤ cs5)
    (hg5 : g5 = circleGap5 cs5) :
    rowWidth ((circle1CharSize r : ℤ) : ℝ) 0 1
        ≤ (82 / 100) * (2 * Real.sqrt ((r : ℝ) ^ 2 - 0 ^ 2))
    ∧ rowWidth ((circle2CharSize r : ℤ) : ℝ) ((circle2Gap r : ℤ) : ℝ) 2
        ≤ (85 / 100) * (2 * Real.sqrt ((r : ℝ) ^ 2 - 0 ^ 2))
    ∧ rowWidth ((circle3CharSize r : ℤ) : ℝ) ((circle3Gap r : ℤ) : ℝ) 3
        ≤ (92 / 100) * (2 * Real.sqrt ((r : ℝ) ^ 2 - 0 ^ 2))
    ∧ rowWidth ((circle3CharSize r : ℤ) : ℝ) ((circle3Gap r : ℤ) : ℝ) 1
        ≤ (92 / 100) * (2 * Real.sqrt ((r : ℝ) ^ 2 - 0 ^ 2))
    ∧ rowWidth ((circle3CharSize r : ℤ) : ℝ) ((circle3Gap r : ℤ) : ℝ) 1
        ≤ (95 / 100) * (2 * Real.sqrt ((r : ℝ) ^ 2
            - (((circle3CharSize r : ℤ) : ℝ) + ((circle3Gap r : ℤ) : ℝ)) ^ 2))
    ∧ rowWidth ((cs4 : ℤ) : ℝ) ((g4 : ℤ) : ℝ) 2
        ≤ (95 / 100) * (2 * Real.sqrt ((r : ℝ) ^ 2 - (((cs4 : ℝ) + (g4 : ℝ)) / 2) ^ 2))
    ∧ rowWidth ((cs5 : ℤ) : ℝ) ((g5 : ℤ) : ℝ) 2
        ≤ (92 / 100) * (2 * Real.sqrt ((r : ℝ) ^ 2 - ((26 / 100) * (r : ℝ)) ^ 2))
    ∧ rowWidth ((cs5 : ℤ) : ℝ) ((g5 : ℤ) : ℝ) 3
        ≤ (92 / 100) * (2 * Real.sqrt ((r : ℝ) ^ 2 - ((26 / 100) * (r : ℝ)) ^ 2))
    ∧ ((82 / 100 : ℝ) < 1 ∧ (85 / 100 : ℝ) < 1 ∧ (92 / 100 : ℝ) < 1 ∧ (95 / 100 : ℝ) < 1) := by
  have hr0 : (0 : ℝ) ≤ (r : ℝ) := by exact_mod_cast hr
  have hsq0 : Real.sqrt ((r : ℝ) ^ 2 - 0 ^ 2) = (r : ℝ) := by
    rw [show (r : ℝ) ^ 2 - 0 ^ 2 = (r : ℝ) ^ 2 from by ring, Real.sqrt_sq hr0]
  obtain ⟨h1a, h1b⟩ := circle1CharSize_bound r hr
  have h1aR : ((circle1CharSize r : ℤ) : ℝ) * 25 ≤ 41 * (r : ℝ) := by exact_mod_cast h1a
  have h1bR : (0 : ℝ) ≤ ((circle1CharSize r : ℤ) : ℝ) := by exact_mod_cast h1b
  obtain ⟨h2a, h2b⟩ := circle2CharSize_bound r hr
  have h2aR : ((circle2CharSize r : ℤ) : ℝ) * 101 ≤ 85 * (r : ℝ) := by exact_mod_cast h2a
  have h2bR : (0 : ℝ) ≤ ((circle2CharSize r : ℤ) : ℝ) := by exact_mod_cast h2b
  obtain ⟨h2g, h2g0⟩ := circle2Gap_bound r hr
  have h2gR : ((circle2Gap r : ℤ) : ℝ) * 50 ≤ ((circle2CharSize r : ℤ) : ℝ) := by exact_mod_cast h2g
  have h2g0R : (0 : ℝ) ≤ ((circle2Gap r : ℤ) : ℝ) := by exact_mod_cast h2g0
  obtain ⟨h3a, h3b⟩ := circle3CharSize_bound r hr
  have h3aR : ((circle3CharSize r : ℤ) : ℝ) * 38 ≤ 23 * (r : ℝ) := by exact_mod_cast h3a
  have h3bR : (0 : ℝ) ≤ ((circle3CharSize r : ℤ) : ℝ) := by exact_mod_cast h3b
  obtain ⟨h3g, h3g0⟩ := circle3Gap_bound r hr
  have h3gR : ((circle3Gap r : ℤ) : ℝ) * 50 ≤ ((circle3CharSize r : ℤ) : ℝ) := by exact_mod_cast h3g
  have h3g0R : (0 : ℝ) ≤ ((circle3Gap r : ℤ) : ℝ) := by exact_mod_cast h3g0
  obtain ⟨h4g, h4g0⟩ := circleGap4_bound cs4 hcs4n
  rw [← hg4] at h4g h4g0
  have h4gR : ((g4 : ℤ) : ℝ) * 100 ≤ (cs4 : ℝ) := by exact_mod_cast h4g
  have h4g0R : (0 : ℝ) ≤ ((g4 : ℤ) : ℝ) := by exact_mod_cast h4g0
  have hcs4nR : (0 : ℝ) ≤ (cs4 : ℝ) := by exact_mod_cast hcs4n
  obtain ⟨h5g, h5g0⟩ := circleGap5_bound cs5 hcs5n
  rw [← hg5] at h5g h5g0
  have h5gR : ((g5 : ℤ) : ℝ) * 100 ≤ (cs5 : ℝ) := by exact_mod_cast h5g
  have h5g0R : (0 : ℝ) ≤ ((g5 : ℤ) : ℝ) := by exact_mod_cast h5g0
  have hcs5nR : (0 : ℝ) ≤ (cs5 : ℝ) := by exact_mod_cast hcs5n
  refine ⟨?_, ?_, ?_, ?_, ?_, ?_, ?_, ?_, by norm_num⟩
  · rw [hsq0]
    unfold rowWidth
    push_cast
    linarith
  · rw [hsq0]
    unfold rowWidth
    push_cast
    linarith
  · rw [hsq0]
    unfold rowWidth
    push_cast
    linarith
  · rw [hsq0]
    unfold rowWidth
    push_cast
    linarith
  · have hmain := chord3v_off (r : ℝ) ((circle3CharSize r : ℤ) : ℝ) ((circle3Gap r : ℤ) : ℝ)
      hr0 h3aR h3gR h3g0R
    unfold rowWidth
    push_cast
    linarith [hmain]
  · have hub : (r : ℝ) * Real.sqrt 2 * (88 / 100) / (2 + 1 / 100) ≤ (62 / 100) * (r : ℝ) := by
      rw [div_le_iff₀ (by norm_num)]
      nlinarith [mul_nonneg hr0 (sub_nonneg.mpr sqrt_two_ub)]
    have hmain := chord4_row (r : ℝ) ((cs4 : ℤ) : ℝ) ((g4 : ℤ) : ℝ) hr0
      (le_trans hcs4 hub) hcs4nR h4gR h4g0R
    unfold rowWidth
    push_cast
    linarith [hmain]
  · have hs0 : (0 : ℝ) ≤ Real.sqrt ((r : ℝ) ^ 2 - ((26 / 100) * (r : ℝ)) ^ 2) :=
      Real.sqrt_nonneg _
    have hmain := chord5_row (Real.sqrt ((r : ℝ) ^ 2 - ((26 / 100) * (r : ℝ)) ^ 2))
      ((cs5 : ℤ) : ℝ) ((g5 : ℤ) : ℝ) hs0 ((le_div_iff₀ (by norm_num)).mp hcs5)
      hcs5nR h5gR h5g0R
    unfold rowWidth
    push_cast
    linarith [hmain.2]
  · have hs0 : (0 : ℝ) ≤ Real.sqrt ((r : ℝ) ^ 2 - ((26 / 100) * (r : ℝ)) ^ 2) :=
      Real.sqrt_nonneg _
    have hmain := chord5_row (Real.sqrt ((r : ℝ) ^ 2 - ((26 / 100) * (r : ℝ)) ^ 2))
      ((cs5 : ℤ) : ℝ) ((g5 : ℤ) : ℝ) hs0 ((le_div_iff₀ (by norm_num)).mp hcs5)
      hcs5nR h5gR h5g0R
    unfold rowWidth
    push_cast
    linarith [hmain.1]

theorem circle_chord_constraint_instance :
    rowWidth ((261 : ℤ) : ℝ) ((2 : ℤ) : ℝ) 3
      ≤ (92 / 100) * (2 * Real.sqrt (((445 : ℤ) : ℝ) ^ 2
          - ((26 / 100) * ((445 : ℤ) : ℝ)) ^ 2)) :=
  (circle_chord_constraint 445 275 2 261 2 (by norm_num)
    (by
      have h2 : (141421 / 100000 : ℝ) ≤ Real.sqrt 2 := Real.le_sqrt_of_sq_le (by norm_num)
      push_cast
      rw [le_div_iff₀ (by norm_num)]
      nlinarith [h2])
    (by norm_num)
    (by
      have h : circleGap4 275 = 2 := by
        unfold circleGap4
        apply pyInt_eval <;> norm_num
      omega)
    (by
      have h2 : (4295 / 10 : ℝ) ≤ Real.sqrt ((445 : ℝ) ^ 2 - ((26 / 100) * (445 : ℝ)) ^ 2) :=
        Real.le_sqrt_of_sq_le (by norm_num)
      push_cast
      rw [le_div_iff₀ (by norm_num)]
      nlinarith [h2])
    (by norm_num)
    (by
      have h : circleGap5 261 = 2 := by
        unfold circleGap5
        apply pyInt_eval <;> norm_num
      omega)).2.2.2.2.2.2.2.1

end Madstamp
